import Mathlib

/-!
# Verification of the siddiqsoft/rwlcontainer core containers

Shallow embedding of the two core components of the repository:

* `RWContainer` (src/src/RWContainer.hpp): a reader-writer-locked
  associative container. The underlying `std::unordered_map` is embedded
  as an association list `List (K × V)` holding the entries in the
  container's iteration order; the stored `shared_ptr<StorageType>`
  handles are embedded as the values themselves, with "absent"
  (`StorageTypePtr{}` / empty handle) embedded as `Option.none`.
  The `throw std::runtime_error` path of `add` is embedded by giving
  `add` an `Except String` result type.

* `WaitableQueue` (src/include/siddiqsoft/WaitableQueue.hpp): a
  signal-coordinated FIFO queue. The `std::queue` is embedded as a
  `List`, the `std::counting_semaphore` as a `Nat` count of available
  units, and the two `uint64_t` counters as `Nat` (they only ever
  increment, so 64-bit wraparound is unreachable in any execution we
  model and is not modelled).

Lock acquisition/release is not represented: every operation of the
source holds the appropriate lock for its whole body, so each operation
is embedded as one atomic state transformation.
-/

set_option autoImplicit false

namespace SiddiqSoft

variable {K V : Type} [DecidableEq K]

/-- Embedding of `std::unordered_map::find` restricted to the mapped
value: first entry of the association list with the given key, `none`
when no entry has the key. -/
def findEntry (c : List (K × V)) (key : K) : Option V :=
  match c with
  | [] => none
  | (k, v) :: rest => if k = key then some v else findEntry rest key

/-- Embedding of `std::unordered_map::insert_or_assign`: when the key is
present the first entry with that key gets the new mapped value (the
stored key object is kept, as in C++); otherwise a new entry is
appended. -/
def insertOrAssign (c : List (K × V)) (key : K) (value : V) : List (K × V) :=
  match c with
  | [] => [(key, value)]
  | (k, v) :: rest =>
      if k = key then (k, value) :: rest else (k, v) :: insertOrAssign rest key value

/-- Embedding of `std::unordered_map::erase(iterator)` at the iterator
produced by a successful `find`: removes the first entry with the key. -/
def eraseEntry (c : List (K × V)) (key : K) : List (K × V) :=
  match c with
  | [] => []
  | (k, v) :: rest => if k = key then rest else (k, v) :: eraseEntry rest key

/-- State of `siddiqsoft::RWContainer` (src/src/RWContainer.hpp):
the two public policy flags, the protected `_container`, and the two
atomic counters. -/
structure RWContainer (K V : Type) where
  ReplaceExisting : Bool := false
  FailOnCollission : Bool := false
  container : List (K × V) := []
  counterAdds : Nat := 0
  counterRemoves : Nat := 0
  deriving DecidableEq, Repr

/-- Well-formedness inherited from `std::unordered_map`: keys are
pairwise distinct. Every state the C++ object can reach satisfies it. -/
def RWContainer.WF (m : RWContainer K V) : Prop :=
  (m.container.map Prod.fst).Nodup

/-- `RWContainer::find` (RWContainer.hpp lines 155-162). -/
def RWContainer.find (m : RWContainer K V) (key : K) : Option V :=
  findEntry m.container key

/-- `RWContainer::size` (RWContainer.hpp lines 165-170). -/
def RWContainer.size (m : RWContainer K V) : Nat :=
  m.container.length

/-- `RWContainer::add(key, value)` (RWContainer.hpp lines 67-84).
Returns the handle result together with the post state; the
`throw std::runtime_error` on line 83 is the `.error` case, reached
exactly when the element cannot be located after `insert_or_assign`
reported an iterator (`iter != _container.end()` is embedded as the
post-insert lookup succeeding). -/
def RWContainer.add (m : RWContainer K V) (key : K) (value : V) :
    Except String (Option V × RWContainer K V) :=
  let itemFound := findEntry m.container key
  if itemFound.isSome && m.FailOnCollission then
    .ok (none, m)
  else if itemFound.isSome && !m.FailOnCollission && !m.ReplaceExisting then
    .ok (itemFound, m)
  else
    let c2 := insertOrAssign m.container key value
    match findEntry c2 key with
    | some v2 =>
        .ok (some v2, { m with container := c2, counterAdds := m.counterAdds + 1 })
    | none => .error "Failed to add for key"

/-- `RWContainer::add(key, shared_ptr)` (RWContainer.hpp lines 91-107).
Identical control flow to the by-value overload; the only C++ difference
is that the given handle is stored directly instead of being wrapped by
`make_shared`, which the embedding does not distinguish. -/
def RWContainer.addPtr (m : RWContainer K V) (key : K) (value : V) :
    Except String (Option V × RWContainer K V) :=
  let itemFound := findEntry m.container key
  if itemFound.isSome && m.FailOnCollission then
    .ok (none, m)
  else if itemFound.isSome && !m.FailOnCollission && !m.ReplaceExisting then
    .ok (itemFound, m)
  else
    let c2 := insertOrAssign m.container key value
    match findEntry c2 key with
    | some v2 =>
        .ok (some v2, { m with container := c2, counterAdds := m.counterAdds + 1 })
    | none => .error "Failed to add for key"

/-- `RWContainer::add(key, newObjectCallback)` (RWContainer.hpp lines
116-133). The third component of the result records whether
`newObjectCallback` was invoked: in the source the call
`newObjectCallback(key)` appears only as the argument of
`insert_or_assign` on line 128, so it runs exactly when control reaches
that line. -/
def RWContainer.addViaCallback (m : RWContainer K V) (key : K) (cb : K → V) :
    Except String (Option V × RWContainer K V × Bool) :=
  let itemFound := findEntry m.container key
  if itemFound.isSome && m.FailOnCollission then
    .ok (none, m, false)
  else if itemFound.isSome && !m.FailOnCollission && !m.ReplaceExisting then
    .ok (itemFound, m, false)
  else
    let c2 := insertOrAssign m.container key (cb key)
    match findEntry c2 key with
    | some v2 =>
        .ok (some v2, { m with container := c2, counterAdds := m.counterAdds + 1 }, true)
    | none => .error "Failed to add for key"

/-- `RWContainer::remove` (RWContainer.hpp lines 136-152). -/
def RWContainer.remove (m : RWContainer K V) (key : K) :
    Option V × RWContainer K V :=
  match findEntry m.container key with
  | some v =>
      (some v,
        { m with
          container := eraseEntry m.container key
          counterRemoves := m.counterRemoves + 1 })
  | none => (none, m)

/-- The loop of `RWContainer::scan` (RWContainer.hpp lines 177-180):
result of the scan together with the list of entries on which
`scanCallback` was invoked, in invocation order. -/
def scanTrace (c : List (K × V)) (p : K → V → Bool) :
    Option V × List (K × V) :=
  match c with
  | [] => (none, [])
  | (k, v) :: rest =>
      if p k v then (some v, [(k, v)])
      else
        let r := scanTrace rest p
        (r.1, (k, v) :: r.2)

/-- `RWContainer::scan` (RWContainer.hpp lines 173-183). It holds only a
shared (reader) lock, so it cannot mutate the state; the embedding makes
it a pure function of the state. -/
def RWContainer.scan (m : RWContainer K V) (p : K → V → Bool) : Option V :=
  (scanTrace m.container p).1

/-- The underlying `std::queue::push` of the queue's storage container:
appends at the tail. -/
def queuePush {T : Type} (c : List T) (value : T) : List T :=
  c ++ [value]

/-- The underlying `std::queue::emplace` of the queue's storage
container: constructs the element in place at the tail; for the embedded
sequence this is likewise an append at the tail. -/
def queueEmplace {T : Type} (c : List T) (value : T) : List T :=
  c ++ [value]

/-- State of `siddiqsoft::WaitableQueue`
(src/include/siddiqsoft/WaitableQueue.hpp): the counting semaphore
`_signal` (count of currently available units), the protected
`_container`, and the two counters. -/
structure WaitableQueue (T : Type) where
  signal : Nat := 0
  container : List T := []
  counterAdds : Nat := 0
  counterRemoves : Nat := 0
  deriving DecidableEq, Repr

/-- A `WaitableQueue` as default-constructed: empty container, semaphore
initialised to zero units, both counters zero. -/
def WaitableQueue.empty (T : Type) : WaitableQueue T :=
  {}

/-- `WaitableQueue::push` (WaitableQueue.hpp lines 102-111): under the
lock, increments `_counterAdds` and pushes at the tail; then, outside the
lock, releases one semaphore unit. -/
def WaitableQueue.push {T : Type} (q : WaitableQueue T) (value : T) :
    WaitableQueue T :=
  { q with
    counterAdds := q.counterAdds + 1
    container := queuePush q.container value
    signal := q.signal + 1 }

/-- `WaitableQueue::emplace` (WaitableQueue.hpp lines 118-127): under the
lock, increments `_counterAdds` and emplaces at the tail; then, outside
the lock, releases one semaphore unit. -/
def WaitableQueue.emplace {T : Type} (q : WaitableQueue T) (value : T) :
    WaitableQueue T :=
  { q with
    counterAdds := q.counterAdds + 1
    container := queueEmplace q.container value
    signal := q.signal + 1 }

/-- `WaitableQueue::tryWaitItem` (WaitableQueue.hpp lines 159-185).
`_signal.try_acquire_for(timeout)` succeeds exactly when a semaphore unit
is (or becomes, within the timeout) available; in the embedding this is
`signal > 0`, and a failed acquire is the timeout. On success a unit is
consumed; then, under the lock, if the container is non-empty the front
element is returned while the scope guard pops it and increments
`_counterRemoves`; if the container is empty despite the successful wait,
the empty option is returned with no further state change. -/
def WaitableQueue.tryWaitItem {T : Type} (q : WaitableQueue T) :
    Option T × WaitableQueue T :=
  if q.signal > 0 then
    match q.container with
    | [] => (none, { q with signal := q.signal - 1 })
    | front :: rest =>
        (some front,
          { q with
            signal := q.signal - 1
            container := rest
            counterRemoves := q.counterRemoves + 1 })
  else
    (none, q)

/-- `WaitableQueue::size` (WaitableQueue.hpp lines 192-197). -/
def WaitableQueue.size {T : Type} (q : WaitableQueue T) : Nat :=
  q.container.length

/-- `WaitableQueue::addCounter` (WaitableQueue.hpp line 204). -/
def WaitableQueue.addCounter {T : Type} (q : WaitableQueue T) : Nat :=
  q.counterAdds

/-- `WaitableQueue::removeCounter` (WaitableQueue.hpp line 212). -/
def WaitableQueue.removeCounter {T : Type} (q : WaitableQueue T) : Nat :=
  q.counterRemoves

/-- One client operation on a `WaitableQueue`: the mutating interface a
single-threaded client can drive the state with. -/
inductive QOp (T : Type) where
  | push (v : T)
  | emplace (v : T)
  | tryWait
  deriving Repr

/-- Apply one client operation to a queue state. -/
def applyQOp {T : Type} (q : WaitableQueue T) : QOp T → WaitableQueue T
  | .push v => q.push v
  | .emplace v => q.emplace v
  | .tryWait => q.tryWaitItem.2

/-- Run a sequence of client operations from a given state. -/
def runQOps {T : Type} (q : WaitableQueue T) : List (QOp T) → WaitableQueue T
  | [] => q
  | op :: ops => runQOps (applyQOp q op) ops

/-- Number of `push`/`emplace` operations in a client operation
sequence. -/
def countPushes {T : Type} : List (QOp T) → Nat
  | [] => 0
  | .push _ :: ops => countPushes ops + 1
  | .emplace _ :: ops => countPushes ops + 1
  | .tryWait :: ops => countPushes ops

/-- Push each value of a list in order (tail of the list pushed last). -/
def pushAll {T : Type} (q : WaitableQueue T) : List T → WaitableQueue T
  | [] => q
  | v :: vs => pushAll (q.push v) vs

/-- Call `tryWaitItem` `n` times from the given state, collecting the
returned items in order; stops early on an absent result. -/
def drainAll {T : Type} (q : WaitableQueue T) : Nat → List T
  | 0 => []
  | n + 1 =>
      match q.tryWaitItem with
      | (some x, q2) => x :: drainAll q2 n
      | (none, _) => []

/-! ## Lemmas about the embedded `std::unordered_map` operations -/

theorem findEntry_insertOrAssign (c : List (K × V)) (key : K) (value : V) :
    findEntry (insertOrAssign c key value) key = some value := by
  induction c with
  | nil => simp [insertOrAssign, findEntry]
  | cons e rest ih =>
      obtain ⟨k, v⟩ := e
      by_cases hk : k = key
      · simp [insertOrAssign, findEntry, hk]
      · simp [insertOrAssign, findEntry, hk, ih]

theorem length_insertOrAssign (c : List (K × V)) (key : K) (value : V)
    (h : (findEntry c key).isSome = true) :
    (insertOrAssign c key value).length = c.length := by
  induction c with
  | nil => simp [findEntry] at h
  | cons e rest ih =>
      obtain ⟨k, v⟩ := e
      by_cases hk : k = key
      · simp [insertOrAssign, hk]
      · simp [findEntry, hk] at h
        simp [insertOrAssign, hk, ih h]

theorem findEntry_eq_none (c : List (K × V)) (key : K)
    (h : key ∉ c.map Prod.fst) : findEntry c key = none := by
  induction c with
  | nil => rfl
  | cons e rest ih =>
      obtain ⟨k, v⟩ := e
      simp only [List.map_cons, List.mem_cons] at h
      push_neg at h
      have hk : ¬k = key := fun hkk => h.1 hkk.symm
      simp [findEntry, hk, ih h.2]

theorem findEntry_eraseEntry (c : List (K × V)) (key : K)
    (h : (c.map Prod.fst).Nodup) :
    findEntry (eraseEntry c key) key = none := by
  induction c with
  | nil => rfl
  | cons e rest ih =>
      obtain ⟨k, v⟩ := e
      simp only [List.map_cons, List.nodup_cons] at h
      by_cases hk : k = key
      · subst hk
        simp [eraseEntry, findEntry_eq_none rest k h.1]
      · simp [eraseEntry, findEntry, hk, ih h.2]

theorem length_eraseEntry (c : List (K × V)) (key : K)
    (h : (findEntry c key).isSome = true) :
    (eraseEntry c key).length + 1 = c.length := by
  induction c with
  | nil => simp [findEntry] at h
  | cons e rest ih =>
      obtain ⟨k, v⟩ := e
      by_cases hk : k = key
      · simp [eraseEntry, hk]
      · simp [findEntry, hk] at h
        simp [eraseEntry, hk, ih h]

omit [DecidableEq K] in
theorem scanTrace_fst (c : List (K × V)) (p : K → V → Bool) :
    (scanTrace c p).1 = (c.find? fun e => p e.1 e.2).map Prod.snd := by
  induction c with
  | nil => rfl
  | cons e rest ih =>
      obtain ⟨k, v⟩ := e
      by_cases hp : p k v
      · simp [scanTrace, hp, List.find?_cons_of_pos]
      · rw [List.find?_cons_of_neg]
        · simp [scanTrace, hp, ih]
        · simpa using hp

omit [DecidableEq K] in
theorem scanTrace_snd (c : List (K × V)) (p : K → V → Bool) :
    (scanTrace c p).2 =
      c.takeWhile (fun e => !p e.1 e.2) ++
        (c.find? fun e => p e.1 e.2).toList := by
  induction c with
  | nil => rfl
  | cons e rest ih =>
      obtain ⟨k, v⟩ := e
      by_cases hp : p k v
      · rw [List.find?_cons_of_pos _ (by simpa using hp)]
        simp [scanTrace, hp, List.takeWhile_cons]
      · rw [List.find?_cons_of_neg _ (by simpa using hp)]
        simp [scanTrace, hp, List.takeWhile_cons, ih]

omit [DecidableEq K] in
theorem scanTrace_initial_segment (c : List (K × V)) (p : K → V → Bool) :
    ∃ rest, c = (scanTrace c p).2 ++ rest := by
  induction c with
  | nil => exact ⟨[], rfl⟩
  | cons e rest ih =>
      obtain ⟨k, v⟩ := e
      by_cases hp : p k v
      · exact ⟨rest, by simp [scanTrace, hp]⟩
      · obtain ⟨tail, htail⟩ := ih
        exact ⟨tail, by simp [scanTrace, hp]; exact htail⟩

/-! ## Lemmas about the embedded `WaitableQueue` operations -/

theorem applyQOp_counter_inv {T : Type} (q : WaitableQueue T) (op : QOp T)
    (h : q.counterRemoves + q.container.length = q.counterAdds) :
    (applyQOp q op).counterRemoves + (applyQOp q op).container.length =
      (applyQOp q op).counterAdds := by
  cases op with
  | push v => simp [applyQOp, WaitableQueue.push, queuePush]; omega
  | emplace v => simp [applyQOp, WaitableQueue.emplace, queueEmplace]; omega
  | tryWait =>
      simp only [applyQOp, WaitableQueue.tryWaitItem]
      by_cases hs : q.signal > 0
      · cases hc : q.container with
        | nil => simpa [hs, hc] using h
        | cons x rest =>
            simp only [hs, if_pos, hc]
            simp only [hc, List.length_cons] at h
            simpa using by omega
      · simpa [hs] using h

theorem runQOps_counter_inv {T : Type} (ops : List (QOp T)) :
    ∀ q : WaitableQueue T,
      q.counterRemoves + q.container.length = q.counterAdds →
      (runQOps q ops).counterRemoves + (runQOps q ops).container.length =
        (runQOps q ops).counterAdds := by
  induction ops with
  | nil => intro q h; exact h
  | cons op ops ih =>
      intro q h
      exact ih (applyQOp q op) (applyQOp_counter_inv q op h)

theorem runQOps_counterAdds {T : Type} (ops : List (QOp T)) :
    ∀ q : WaitableQueue T,
      (runQOps q ops).counterAdds = q.counterAdds + countPushes ops := by
  induction ops with
  | nil => intro q; simp [runQOps, countPushes]
  | cons op ops ih =>
      intro q
      cases op with
      | push v =>
          simp only [runQOps, countPushes, applyQOp]
          rw [ih]
          simp [WaitableQueue.push]
          omega
      | emplace v =>
          simp only [runQOps, countPushes, applyQOp]
          rw [ih]
          simp [WaitableQueue.emplace]
          omega
      | tryWait =>
          simp only [runQOps, countPushes, applyQOp]
          rw [ih]
          congr 1
          simp only [WaitableQueue.tryWaitItem]
          by_cases hs : q.signal > 0
          · cases hc : q.container <;> simp [hs, hc]
          · simp [hs]

theorem pushAll_container {T : Type} (vs : List T) :
    ∀ q : WaitableQueue T, (pushAll q vs).container = q.container ++ vs := by
  induction vs with
  | nil => intro q; simp [pushAll]
  | cons v vs ih =>
      intro q
      simp [pushAll, ih, WaitableQueue.push, queuePush]

theorem pushAll_signal {T : Type} (vs : List T) :
    ∀ q : WaitableQueue T, (pushAll q vs).signal = q.signal + vs.length := by
  induction vs with
  | nil => intro q; simp [pushAll]
  | cons v vs ih =>
      intro q
      simp [pushAll, ih, WaitableQueue.push]
      omega

theorem drainAll_of_signal_ge {T : Type} (c : List T) :
    ∀ q : WaitableQueue T, q.container = c → c.length ≤ q.signal →
      drainAll q c.length = c := by
  induction c with
  | nil => intro q _ _; rfl
  | cons x rest ih =>
      intro q hc hs
      have hsig : q.signal > 0 := by simp at hs; omega
      have hstep :
          q.tryWaitItem =
            (some x,
              { q with
                signal := q.signal - 1
                container := rest
                counterRemoves := q.counterRemoves + 1 }) := by
        simp [WaitableQueue.tryWaitItem, hsig, hc]
      simp only [List.length_cons, drainAll, hstep]
      congr 1
      refine ih _ rfl ?_
      simp only [List.length_cons] at hs
      simp only []
      omega

/-- Whether `RWContainer::add(key, newObjectCallback)` invokes the
callback on the given state and arguments. -/
def cbInvoked (m : RWContainer K V) (key : K) (cb : K → V) : Bool :=
  match m.addViaCallback key cb with
  | .ok (_, _, invoked) => invoked
  | .error _ => false

/-- A one-entry map (key 0 stored value 10) under the default policy,
used as concrete input for the witnesses. -/
def mapW : RWContainer Nat Nat :=
  { container := [(0, 10)], counterAdds := 1 }

/-! ## Claim theorems for `RWContainer` -/

/-- C1: with key already present storing v1, `add(key, v2)` follows the
collision policy, `FailOnCollission` checked first: it returns absent
with the state untouched (so v1 stays stored) when `FailOnCollission` is
set, regardless of `ReplaceExisting`; it returns the pre-existing v1
handle with the state untouched under the default policy; and when
`ReplaceExisting` is set with `FailOnCollission` clear it overwrites the
entry, returns the v2 handle, and leaves `size()` unchanged. The
`shared_ptr` overload behaves identically. -/
theorem map_add_collision_policy (m : RWContainer K V) (key : K) (v1 v2 : V)
    (h : m.find key = some v1) :
    m.add key v2 =
      .ok (if m.FailOnCollission then none
           else if m.ReplaceExisting then some v2
           else some v1,
           if m.FailOnCollission || !m.ReplaceExisting then m
           else
             { m with
               container := insertOrAssign m.container key v2
               counterAdds := m.counterAdds + 1 }) ∧
    ({ m with
       container := insertOrAssign m.container key v2
       counterAdds := m.counterAdds + 1 } : RWContainer K V).find key = some v2 ∧
    ({ m with
       container := insertOrAssign m.container key v2
       counterAdds := m.counterAdds + 1 } : RWContainer K V).size = m.size ∧
    m.addPtr key v2 = m.add key v2 := by
  have hf : findEntry m.container key = some v1 := h
  refine ⟨?_, ?_, ?_, rfl⟩
  · cases hF : m.FailOnCollission <;> cases hR : m.ReplaceExisting <;>
      simp [RWContainer.add, hf, hF, hR, findEntry_insertOrAssign]
  · simpa [RWContainer.find] using findEntry_insertOrAssign m.container key v2
  · simpa [RWContainer.size] using
      length_insertOrAssign m.container key v2 (by simp [hf])

/-- Witness for C1 at the concrete one-entry default-policy map. -/
theorem map_add_collision_policy_witness :
    mapW.find 0 = some 10 ∧
    (mapW.add 0 20 =
      .ok (if mapW.FailOnCollission then none
           else if mapW.ReplaceExisting then some 20
           else some 10,
           if mapW.FailOnCollission || !mapW.ReplaceExisting then mapW
           else
             { mapW with
               container := insertOrAssign mapW.container 0 20
               counterAdds := mapW.counterAdds + 1 }) ∧
    ({ mapW with
       container := insertOrAssign mapW.container 0 20
       counterAdds := mapW.counterAdds + 1 } : RWContainer Nat Nat).find 0 = some 20 ∧
    ({ mapW with
       container := insertOrAssign mapW.container 0 20
       counterAdds := mapW.counterAdds + 1 } : RWContainer Nat Nat).size = mapW.size ∧
    mapW.addPtr 0 20 = mapW.add 0 20) :=
  ⟨by decide, map_add_collision_policy mapW 0 10 20 (by decide)⟩

/-- C6: `remove` of a present key erases the entry, increments
`removeCount`, and returns the handle `find` would have returned
immediately before, after which `find` returns absent; `remove` of an
absent key returns absent with the state untouched, incrementing no
counter. -/
theorem map_remove_spec (m : RWContainer K V) (key : K) (hwf : m.WF) :
    m.remove key =
      (m.find key,
        if (m.find key).isSome then
          { m with
            container := eraseEntry m.container key
            counterRemoves := m.counterRemoves + 1 }
        else m) ∧
    ((m.remove key).2).find key = none ∧
    ((m.remove key).2).size = m.size - (m.find key).isSome.toNat ∧
    ((m.remove key).2).counterAdds = m.counterAdds := by
  cases hf : findEntry m.container key with
  | none =>
      refine ⟨?_, ?_, ?_, ?_⟩ <;>
        simp [RWContainer.remove, RWContainer.find, RWContainer.size, hf]
  | some v =>
      have h2 := findEntry_eraseEntry m.container key hwf
      have h3 := length_eraseEntry m.container key (by simp [hf])
      refine ⟨?_, ?_, ?_, ?_⟩
      · simp [RWContainer.remove, RWContainer.find, hf]
      · simp [RWContainer.remove, RWContainer.find, hf, h2]
      · simp [RWContainer.remove, RWContainer.find, RWContainer.size, hf]
        omega
      · simp [RWContainer.remove, hf]

/-- Witness for C6 at the concrete one-entry default-policy map. -/
theorem map_remove_spec_witness :
    mapW.WF ∧
    (mapW.remove 0 =
      (mapW.find 0,
        if (mapW.find 0).isSome then
          { mapW with
            container := eraseEntry mapW.container 0
            counterRemoves := mapW.counterRemoves + 1 }
        else mapW) ∧
    ((mapW.remove 0).2).find 0 = none ∧
    ((mapW.remove 0).2).size = mapW.size - (mapW.find 0).isSome.toNat ∧
    ((mapW.remove 0).2).counterAdds = mapW.counterAdds) :=
  ⟨by simp [RWContainer.WF, mapW], map_remove_spec mapW 0 (by simp [RWContainer.WF, mapW])⟩

omit [DecidableEq K] in
/-- C7: `scan` returns the value of the first entry, in the container's
iteration order, satisfying the predicate, absent when no entry does (in
particular on the empty map); the entries on which the predicate is
invoked form an initial segment of the container that stops at the first
match, so the predicate runs at most once per entry and on no entry
after the first match. Holding only a reader lock, `scan` leaves the
state untouched (it is a pure function of the state in the embedding). -/
theorem map_scan_spec (m : RWContainer K V) (p : K → V → Bool) :
    m.scan p = (m.container.find? fun e => p e.1 e.2).map Prod.snd ∧
    (scanTrace m.container p).2 =
      m.container.takeWhile (fun e => !p e.1 e.2) ++
        (m.container.find? fun e => p e.1 e.2).toList ∧
    (∃ rest, m.container = (scanTrace m.container p).2 ++ rest) :=
  ⟨scanTrace_fst m.container p, scanTrace_snd m.container p,
    scanTrace_initial_segment m.container p⟩

/-- C8: the fatal-error path (`throw` after a passed collision check) is
unreachable: all three overloads of `add` always return a handle or
absent, never the error, because an element can always be located right
after `insert_or_assign` stores it. -/
theorem map_add_fatal_path_unreachable (m : RWContainer K V) (key : K)
    (v : V) (cb : K → V) :
    (∃ r, m.add key v = .ok r) ∧ (∃ r, m.addPtr key v = .ok r) ∧
    (∃ r, m.addViaCallback key cb = .ok r) := by
  refine ⟨?_, ?_, ?_⟩ <;>
  · simp only [RWContainer.add, RWContainer.addPtr, RWContainer.addViaCallback,
      findEntry_insertOrAssign]
    split
    · exact ⟨_, rfl⟩
    · split
      · exact ⟨_, rfl⟩
      · exact ⟨_, rfl⟩

/-- C10: a colliding `add` that does not overwrite is frame-preserving,
for every input form of `add`: with the key present, the by-value,
`shared_ptr`, and callback overloads under `FailOnCollission` return
absent with the entire state (table, counters) unchanged — the callback
moreover uninvoked — and under the default policy they return the
existing handle with the entire state unchanged; moreover every
successful `add` (by-value or callback) leaves `removeCount` untouched,
and it changes `addCount` only when it actually inserts or overwrites —
if `addCount` is unchanged the whole state is unchanged, and if it
changed it grew by exactly one alongside the table update. -/
theorem map_add_no_overwrite_frame (m : RWContainer K V) (key : K) (v : V)
    (h : (m.find key).isSome = true) :
    ({ m with FailOnCollission := true } : RWContainer K V).add key v =
      .ok (none, { m with FailOnCollission := true }) ∧
    ({ m with FailOnCollission := true } : RWContainer K V).addPtr key v =
      .ok (none, { m with FailOnCollission := true }) ∧
    (∀ cb : K → V,
      ({ m with FailOnCollission := true } : RWContainer K V).addViaCallback
          key cb =
        .ok (none, { m with FailOnCollission := true }, false)) ∧
    ({ m with FailOnCollission := false, ReplaceExisting := false } :
        RWContainer K V).add key v =
      .ok (m.find key,
        { m with FailOnCollission := false, ReplaceExisting := false }) ∧
    ({ m with FailOnCollission := false, ReplaceExisting := false } :
        RWContainer K V).addPtr key v =
      .ok (m.find key,
        { m with FailOnCollission := false, ReplaceExisting := false }) ∧
    (∀ cb : K → V,
      ({ m with FailOnCollission := false, ReplaceExisting := false } :
          RWContainer K V).addViaCallback key cb =
        .ok (m.find key,
          { m with FailOnCollission := false, ReplaceExisting := false },
          false)) ∧
    (∀ r m2, m.add key v = .ok (r, m2) →
      m2.counterRemoves = m.counterRemoves ∧
      (m2.counterAdds = m.counterAdds → m2 = m) ∧
      (m2.counterAdds ≠ m.counterAdds →
        m2.counterAdds = m.counterAdds + 1 ∧
        m2.container = insertOrAssign m.container key v)) ∧
    (∀ (cb : K → V) r m2 b, m.addViaCallback key cb = .ok (r, m2, b) →
      m2.counterRemoves = m.counterRemoves ∧
      (m2.counterAdds = m.counterAdds → m2 = m) ∧
      (m2.counterAdds ≠ m.counterAdds →
        m2.counterAdds = m.counterAdds + 1 ∧
        m2.container = insertOrAssign m.container key (cb key))) := by
  have hf : (findEntry m.container key).isSome = true := h
  obtain ⟨v1, hv1⟩ := Option.isSome_iff_exists.mp hf
  refine ⟨?_, ?_, ?_, ?_, ?_, ?_, ?_, ?_⟩
  · simp [RWContainer.add, hf]
  · simp [RWContainer.addPtr, hf]
  · intro cb
    simp [RWContainer.addViaCallback, hf]
  · simp [RWContainer.add, RWContainer.find, hv1]
  · simp [RWContainer.addPtr, RWContainer.find, hv1]
  · intro cb
    simp [RWContainer.addViaCallback, RWContainer.find, hv1]
  · intro r m2 hadd
    simp only [RWContainer.add] at hadd
    split at hadd
    · simp only [Except.ok.injEq, Prod.mk.injEq] at hadd
      obtain ⟨h1, h2⟩ := hadd
      subst h2
      exact ⟨rfl, fun _ => rfl, fun hne => absurd rfl hne⟩
    · split at hadd
      · simp only [Except.ok.injEq, Prod.mk.injEq] at hadd
        obtain ⟨h1, h2⟩ := hadd
        subst h2
        exact ⟨rfl, fun _ => rfl, fun hne => absurd rfl hne⟩
      · split at hadd
        · simp only [Except.ok.injEq, Prod.mk.injEq] at hadd
          obtain ⟨h1, h2⟩ := hadd
          subst h2
          refine ⟨rfl, fun hc => ?_, fun _ => ⟨rfl, rfl⟩⟩
          simp at hc
        · exact absurd hadd (by simp)
  · intro cb r m2 b hadd
    simp only [RWContainer.addViaCallback] at hadd
    split at hadd
    · simp only [Except.ok.injEq, Prod.mk.injEq] at hadd
      obtain ⟨h1, h2, h3⟩ := hadd
      subst h2
      exact ⟨rfl, fun _ => rfl, fun hne => absurd rfl hne⟩
    · split at hadd
      · simp only [Except.ok.injEq, Prod.mk.injEq] at hadd
        obtain ⟨h1, h2, h3⟩ := hadd
        subst h2
        exact ⟨rfl, fun _ => rfl, fun hne => absurd rfl hne⟩
      · split at hadd
        · simp only [Except.ok.injEq, Prod.mk.injEq] at hadd
          obtain ⟨h1, h2, h3⟩ := hadd
          subst h2
          refine ⟨rfl, fun hc => ?_, fun _ => ⟨rfl, rfl⟩⟩
          simp at hc
        · exact absurd hadd (by simp)

/-- Witness for C10 at the concrete one-entry map: the
`FailOnCollission` frame case for all three overloads and, via the
default-policy callback result `.ok (some 10, mapW, false)`, the counter
frame conditions. -/
theorem map_add_no_overwrite_frame_witness :
    (mapW.find 0).isSome = true ∧
    ({ mapW with FailOnCollission := true } : RWContainer Nat Nat).add 0 20 =
      .ok (none, { mapW with FailOnCollission := true }) ∧
    ({ mapW with FailOnCollission := true } : RWContainer Nat Nat).addPtr 0 20 =
      .ok (none, { mapW with FailOnCollission := true }) ∧
    ({ mapW with FailOnCollission := true } :
        RWContainer Nat Nat).addViaCallback 0 (fun _ => 20) =
      .ok (none, { mapW with FailOnCollission := true }, false) ∧
    (mapW.counterRemoves = mapW.counterRemoves ∧
      (mapW.counterAdds = mapW.counterAdds → mapW = mapW) ∧
      (mapW.counterAdds ≠ mapW.counterAdds →
        mapW.counterAdds = mapW.counterAdds + 1 ∧
        mapW.container = insertOrAssign mapW.container 0 ((fun _ => 20) 0))) :=
  ⟨by decide,
    (map_add_no_overwrite_frame mapW 0 20 (by decide)).1,
    (map_add_no_overwrite_frame mapW 0 20 (by decide)).2.1,
    (map_add_no_overwrite_frame mapW 0 20 (by decide)).2.2.1 (fun _ => 20),
    (map_add_no_overwrite_frame mapW 0 20 (by decide)).2.2.2.2.2.2.2
      (fun _ => 20) (some 10) mapW false rfl⟩

/-- A one-entry map (key 0 stored value 1) with `ReplaceExisting` set
and `FailOnCollission` clear. -/
def mapReplace : RWContainer Nat Nat :=
  { ReplaceExisting := true, container := [(0, 1)], counterAdds := 1 }

/-- C2 counterexample: with key 0 present (stored value 1),
`ReplaceExisting = true` and `FailOnCollission = false`, the callback
overload of `add` DOES invoke the callback: control reaches
`insert_or_assign(key, newObjectCallback(key))`, the callback runs, and
its result overwrites the stored entry. -/
theorem map_add_callback_runs_on_collision :
    mapReplace.find 0 = some 1 ∧
    mapReplace.addViaCallback 0 (fun _ => 2) =
      .ok (some 2,
        { mapReplace with container := [(0, 2)], counterAdds := 2 },
        true) ∧
    cbInvoked mapReplace 0 (fun _ => 2) = true :=
  ⟨rfl, rfl, rfl⟩

/-- C2 amended: the callback is invoked exactly when no entry for the
key exists, or when an entry exists but `ReplaceExisting` is set with
`FailOnCollission` clear. In particular, on a colliding key the callback
stays uninvoked under `FailOnCollission = true` and under the default
`ReplaceExisting = false`, but it IS invoked — and its result overwrites
the entry — when `ReplaceExisting = true` and `FailOnCollission =
false`. -/
theorem map_add_callback_invocation (m : RWContainer K V) (key : K)
    (cb : K → V) :
    cbInvoked m key cb =
      (!(m.find key).isSome || (!m.FailOnCollission && m.ReplaceExisting)) := by
  unfold cbInvoked RWContainer.addViaCallback
  cases hf : findEntry m.container key <;>
    cases hF : m.FailOnCollission <;> cases hR : m.ReplaceExisting <;>
      simp [RWContainer.find, hf, hF, hR, findEntry_insertOrAssign]

/-! ## Claim theorems for `WaitableQueue` -/

/-- C3: on every state reached from the default-constructed queue by a
sequence of push/emplace/tryWaitItem operations, `addCount - removeCount`
equals the length of the internal sequence (equivalently `removeCount +
length = addCount`), `addCounter()` equals the total number of pushes,
and `removeCounter() <= addCounter()`; moreover each push/emplace
increments `addCount` by exactly one while appending one item, and each
successful `tryWaitItem` increments `removeCount` by exactly one while
removing one item. -/
theorem queue_counter_invariant {T : Type} (ops : List (QOp T)) :
    ((runQOps (WaitableQueue.empty T) ops).counterAdds -
        (runQOps (WaitableQueue.empty T) ops).counterRemoves =
      (runQOps (WaitableQueue.empty T) ops).container.length ∧
     (runQOps (WaitableQueue.empty T) ops).counterRemoves +
        (runQOps (WaitableQueue.empty T) ops).container.length =
      (runQOps (WaitableQueue.empty T) ops).counterAdds ∧
     (runQOps (WaitableQueue.empty T) ops).addCounter = countPushes ops ∧
     (runQOps (WaitableQueue.empty T) ops).removeCounter ≤
        (runQOps (WaitableQueue.empty T) ops).addCounter) ∧
    (∀ q : WaitableQueue T, ∀ v : T,
      (q.push v).counterAdds = q.counterAdds + 1 ∧
      (q.push v).container.length = q.container.length + 1 ∧
      (q.emplace v).counterAdds = q.counterAdds + 1 ∧
      (q.emplace v).container.length = q.container.length + 1) ∧
    (∀ q : WaitableQueue T, q.tryWaitItem.1.isSome = true →
      q.tryWaitItem.2.counterRemoves = q.counterRemoves + 1 ∧
      q.tryWaitItem.2.container.length + 1 = q.container.length) := by
  have hinv := runQOps_counter_inv ops (WaitableQueue.empty T) rfl
  have hadds := runQOps_counterAdds ops (WaitableQueue.empty T)
  refine ⟨⟨by omega, hinv, ?_, ?_⟩, ?_, ?_⟩
  · simpa [WaitableQueue.addCounter, WaitableQueue.empty] using hadds
  · simp only [WaitableQueue.addCounter, WaitableQueue.removeCounter]
    omega
  · intro q v
    refine ⟨rfl, ?_, rfl, ?_⟩ <;>
      simp [WaitableQueue.push, WaitableQueue.emplace, queuePush, queueEmplace]
  · intro q hsome
    simp only [WaitableQueue.tryWaitItem] at hsome ⊢
    by_cases hs : q.signal > 0
    · cases hc : q.container with
      | nil => simp [hs, hc] at hsome
      | cons x rest => simp [hs, hc]
    · simp [hs] at hsome

/-- Witness for C3: a concrete run (two pushes, one emplace, two waits)
and a concrete successful `tryWaitItem`. -/
theorem queue_counter_invariant_witness :
    ((runQOps (WaitableQueue.empty Nat)
        [.push 7, .emplace 8, .tryWait, .push 9, .tryWait]).counterAdds -
      (runQOps (WaitableQueue.empty Nat)
        [.push 7, .emplace 8, .tryWait, .push 9, .tryWait]).counterRemoves =
      (runQOps (WaitableQueue.empty Nat)
        [.push 7, .emplace 8, .tryWait, .push 9, .tryWait]).container.length) ∧
    (({ signal := 1, container := [5] } : WaitableQueue Nat).tryWaitItem.1.isSome =
      true) ∧
    (({ signal := 1, container := [5] } : WaitableQueue Nat).tryWaitItem.2.counterRemoves =
        ({ signal := 1, container := [5] } : WaitableQueue Nat).counterRemoves + 1 ∧
      ({ signal := 1, container := [5] } : WaitableQueue Nat).tryWaitItem.2.container.length + 1 =
        ({ signal := 1, container := [5] } : WaitableQueue Nat).container.length) :=
  ⟨(queue_counter_invariant [.push 7, .emplace 8, .tryWait, .push 9, .tryWait]).1.1,
    by decide,
    (queue_counter_invariant ([] : List (QOp Nat))).2.2
      { signal := 1, container := [5] } (by decide)⟩

/-- C4: `tryWaitItem` never signals an error: on timeout (no semaphore
unit available) it returns absent with the state untouched; on a
successful wait with a non-empty sequence it returns the head element,
removes it, and increments `removeCount`; on a successful wait with an
empty sequence (the benign multi-consumer race) it returns absent
without touching the sequence or `removeCount`. -/
theorem queue_tryWaitItem_total {T : Type} (q : WaitableQueue T) :
    (q.signal = 0 → q.tryWaitItem = (none, q)) ∧
    (0 < q.signal → q.container ≠ [] →
      q.tryWaitItem.1 = q.container.head? ∧
      q.tryWaitItem.2.container = q.container.tail ∧
      q.tryWaitItem.2.counterRemoves = q.counterRemoves + 1 ∧
      q.tryWaitItem.2.counterAdds = q.counterAdds) ∧
    (0 < q.signal → q.container = [] →
      q.tryWaitItem.1 = none ∧
      q.tryWaitItem.2.container = q.container ∧
      q.tryWaitItem.2.counterRemoves = q.counterRemoves) := by
  refine ⟨?_, ?_, ?_⟩
  · intro hs
    simp [WaitableQueue.tryWaitItem, hs]
  · intro hs hne
    cases hc : q.container with
    | nil => exact absurd hc hne
    | cons x rest => simp [WaitableQueue.tryWaitItem, hs, hc]
  · intro hs hc
    simp [WaitableQueue.tryWaitItem, hs, hc]

/-- Witness for C4 at a concrete queue holding one signalled item. -/
theorem queue_tryWaitItem_total_witness :
    0 < ({ signal := 1, container := [5], counterAdds := 1 } :
        WaitableQueue Nat).signal ∧
    ({ signal := 1, container := [5], counterAdds := 1 } :
        WaitableQueue Nat).container ≠ [] ∧
    (({ signal := 1, container := [5], counterAdds := 1 } :
        WaitableQueue Nat).tryWaitItem.1 =
      ({ signal := 1, container := [5], counterAdds := 1 } :
        WaitableQueue Nat).container.head? ∧
     ({ signal := 1, container := [5], counterAdds := 1 } :
        WaitableQueue Nat).tryWaitItem.2.container =
      ({ signal := 1, container := [5], counterAdds := 1 } :
        WaitableQueue Nat).container.tail ∧
     ({ signal := 1, container := [5], counterAdds := 1 } :
        WaitableQueue Nat).tryWaitItem.2.counterRemoves =
      ({ signal := 1, container := [5], counterAdds := 1 } :
        WaitableQueue Nat).counterRemoves + 1 ∧
     ({ signal := 1, container := [5], counterAdds := 1 } :
        WaitableQueue Nat).tryWaitItem.2.counterAdds =
      ({ signal := 1, container := [5], counterAdds := 1 } :
        WaitableQueue Nat).counterAdds) :=
  ⟨by decide, by decide,
    (queue_tryWaitItem_total
        { signal := 1, container := [5], counterAdds := 1 }).2.1
      (by decide) (by decide)⟩

/-- C5: the queue is FIFO and preserves element identity: `push` appends
at the tail, `tryWaitItem` returns and removes the head; pushing v into
the fresh queue and immediately calling `tryWaitItem` yields v
unchanged, and draining a fresh queue after pushing any sequence of
values yields exactly that sequence in push order. -/
theorem queue_fifo_order {T : Type} (v : T) (vs : List T) :
    ((WaitableQueue.empty T).push v).tryWaitItem.1 = some v ∧
    (∀ q : WaitableQueue T, (q.push v).container = q.container ++ [v]) ∧
    (∀ q : WaitableQueue T, 0 < q.signal →
      q.tryWaitItem.1 = q.container.head? ∧
      q.tryWaitItem.2.container = q.container.tail) ∧
    drainAll (pushAll (WaitableQueue.empty T) vs) vs.length = vs := by
  refine ⟨rfl, fun q => rfl, ?_, ?_⟩
  · intro q hs
    cases hc : q.container with
    | nil => simp [WaitableQueue.tryWaitItem, hs, hc]
    | cons x rest => simp [WaitableQueue.tryWaitItem, hs, hc]
  · refine drainAll_of_signal_ge vs _ ?_ ?_
    · simpa [WaitableQueue.empty] using pushAll_container vs (WaitableQueue.empty T)
    · simp [pushAll_signal]

/-- Witness for C5 at a concrete queue with one available unit. -/
theorem queue_fifo_order_witness :
    0 < ({ signal := 1, container := [3, 4] } : WaitableQueue Nat).signal ∧
    (({ signal := 1, container := [3, 4] } : WaitableQueue Nat).tryWaitItem.1 =
      ({ signal := 1, container := [3, 4] } : WaitableQueue Nat).container.head? ∧
     ({ signal := 1, container := [3, 4] } : WaitableQueue Nat).tryWaitItem.2.container =
      ({ signal := 1, container := [3, 4] } : WaitableQueue Nat).container.tail) :=
  ⟨by decide,
    (queue_fifo_order 0 ([] : List Nat)).2.2.1
      { signal := 1, container := [3, 4] } (by decide)⟩

/-- C9: `emplace` is observationally equivalent to `push`: it produces
the identical resulting state — the value appended at the tail, the same
single `addCount` increment, the same single semaphore release, and
`removeCount` untouched. -/
theorem queue_emplace_eq_push {T : Type} (q : WaitableQueue T) (v : T) :
    q.emplace v = q.push v ∧
    (q.emplace v).container = q.container ++ [v] ∧
    (q.emplace v).counterAdds = q.counterAdds + 1 ∧
    (q.emplace v).signal = q.signal + 1 ∧
    (q.emplace v).counterRemoves = q.counterRemoves :=
  ⟨rfl, rfl, rfl, rfl, rfl⟩

end SiddiqSoft
